import Mathlib

/-!
Verification of the exception-handler crate (crash-handling repository).

The development shallowly embeds src/exception-handler/src/linux.rs.  The
private platform module `state` (registry storage, OS installation routines
and the dispatch routine HandlerInner::handle_signal) is not part of the
sources; those pieces are modelled from the specification and are marked
`Modelled from the spec:` in their doc comments.  Everything else is a direct
translation of the Rust source.

CrashContext is a repr(C) struct; we embed it by its fixed-size in-memory
byte representation, with the typed fields recovered as little-endian reads
at their layout offsets.  This makes `as_bytes` literally the identity view
of the struct's own memory and `from_bytes` the length-checked
reinterpretation, exactly as in the source.
-/

set_option maxHeartbeats 1000000
set_option maxRecDepth 16384

namespace CrashHandling

/-- A single byte of process memory. -/
abbrev Byte := Fin 256

/-- Little-endian byte representation of a natural number in exactly `w`
bytes: the in-memory representation of a `w`-byte field of a repr(C)
struct. -/
def toLE : Nat → Nat → List Byte
  | 0, _ => []
  | w + 1, n => ⟨n % 256, Nat.mod_lt n (by omega)⟩ :: toLE w (n / 256)

/-- Numeric value of a little-endian byte string. -/
def fromLE : List Byte → Nat
  | [] => 0
  | b :: bs => b.val + 256 * fromLE bs

theorem toLE_length (w n : Nat) : (toLE w n).length = w := by
  induction w generalizing n with
  | zero => rfl
  | succ w ih => simp [toLE, ih]

theorem fromLE_toLE (w n : Nat) (h : n < 256 ^ w) : fromLE (toLE w n) = n := by
  induction w generalizing n with
  | zero =>
      simp only [pow_zero] at h
      simp [toLE, fromLE]
      omega
  | succ w ih =>
      have hdiv : n / 256 < 256 ^ w := by
        rw [Nat.div_lt_iff_lt_mul (by omega)]
        calc n < 256 ^ (w + 1) := h
        _ = 256 ^ w * 256 := by ring
      simp [toLE, fromLE, ih (n / 256) hdiv]
      omega

theorem fromLE_lt (l : List Byte) : fromLE l < 256 ^ l.length := by
  induction l with
  | nil => simp [fromLE]
  | cons b bs ih =>
      have hb := b.isLt
      simp only [fromLE, List.length_cons, pow_succ]
      calc b.val + 256 * fromLE bs < 256 + 256 * fromLE bs := by omega
      _ ≤ 256 * (fromLE bs + 1) := by ring_nf; omega
      _ ≤ 256 * 256 ^ bs.length := by
            have := ih
            exact Nat.mul_le_mul_left 256 (by omega)
      _ = 256 ^ bs.length * 256 := by ring

/-- Byte size of the externally supplied `uctx::ucontext_t` binding (platform
parameter of the model; the value for x86_64 Linux).  The claims below do not
depend on the concrete value. -/
def ucontextSize : Nat := 968

/-- Byte size of the externally supplied `uctx::fpregset_t` binding (platform
parameter of the model). -/
def fpregsetSize : Nat := 8

/-- Byte size of `libc::signalfd_siginfo` (fixed 128 bytes on Linux). -/
def siginfoSize : Nat := 128

/-- Byte size of `libc::pid_t` (i32). -/
def pidSize : Nat := 4

/-- size_of::<CrashContext>() for the build target: a repr(C) struct laid out
as context, float_state, siginfo, tid. -/
def crashContextSize : Nat := ucontextSize + fpregsetSize + siginfoSize + pidSize

/-- CrashContext from linux.rs: the full context for a crash, a repr(C)
struct with fields context (ucontext_t), float_state (fpregset_t), siginfo
(signalfd_siginfo) and tid (pid_t).  Embedded by its fixed-size in-memory
byte representation; the typed fields are offset accessors below. -/
structure CrashContext where
  raw : List Byte
  raw_size : raw.length = crashContextSize

/-- Little-endian read of the `w`-byte field located at byte offset `off` of
a repr(C) struct's memory. -/
def readN (bytes : List Byte) (off w : Nat) : Fin (256 ^ w) :=
  ⟨fromLE ((bytes.drop off).take w) % 256 ^ w, Nat.mod_lt _ (pow_pos (by omega) w)⟩

/-- Field CrashContext.context (offset 0). -/
def CrashContext.context (c : CrashContext) : Fin (256 ^ ucontextSize) :=
  readN c.raw 0 ucontextSize

/-- Field CrashContext.float_state. -/
def CrashContext.float_state (c : CrashContext) : Fin (256 ^ fpregsetSize) :=
  readN c.raw ucontextSize fpregsetSize

/-- Field CrashContext.siginfo.ssi_signo (first u32 of signalfd_siginfo). -/
def CrashContext.ssi_signo (c : CrashContext) : Fin (256 ^ 4) :=
  readN c.raw (ucontextSize + fpregsetSize) 4

/-- Field CrashContext.siginfo.ssi_errno. -/
def CrashContext.ssi_errno (c : CrashContext) : Fin (256 ^ 4) :=
  readN c.raw (ucontextSize + fpregsetSize + 4) 4

/-- Field CrashContext.siginfo.ssi_code. -/
def CrashContext.ssi_code (c : CrashContext) : Fin (256 ^ 4) :=
  readN c.raw (ucontextSize + fpregsetSize + 8) 4

/-- Field CrashContext.siginfo.ssi_pid. -/
def CrashContext.ssi_pid (c : CrashContext) : Fin (256 ^ 4) :=
  readN c.raw (ucontextSize + fpregsetSize + 12) 4

/-- Field CrashContext.tid (after the 128-byte siginfo). -/
def CrashContext.tid (c : CrashContext) : Fin (256 ^ 4) :=
  readN c.raw (ucontextSize + fpregsetSize + siginfoSize) 4

/-- CrashContext::as_bytes from linux.rs: a read-only view of the struct's
own memory (slice::from_raw_parts over self, length size_of_val) — in the
byte embedding, the identity view of the representation. -/
def CrashContext.as_bytes (c : CrashContext) : List Byte := c.raw

/-- CrashContext::from_bytes from linux.rs: reject any buffer whose length
differs from size_of::<Self>(), otherwise reinterpret the bytes as Self and
clone (a bitwise copy for this inert data). -/
def CrashContext.from_bytes (bytes : List Byte) : Option CrashContext :=
  if h : bytes.length ≠ crashContextSize then none
  else some ⟨bytes, by omega⟩

/-- The subset of libc::signalfd_siginfo the crate manipulates, as typed
values: the four leading u32 fields and the remaining 112 bytes (which the
crate only ever zero-initializes). -/
structure SigInfo where
  ssi_signo : Fin (256 ^ 4)
  ssi_errno : Fin (256 ^ 4)
  ssi_code : Fin (256 ^ 4)
  ssi_pid : Fin (256 ^ 4)
  rest : Fin (256 ^ 112)

/-- In-memory layout of a signalfd_siginfo value. -/
def SigInfo.encode (s : SigInfo) : List Byte :=
  toLE 4 s.ssi_signo.val ++ toLE 4 s.ssi_errno.val ++ toLE 4 s.ssi_code.val ++
    toLE 4 s.ssi_pid.val ++ toLE 112 s.rest.val

theorem SigInfo.encode_length (s : SigInfo) : s.encode.length = siginfoSize := by
  simp [SigInfo.encode, toLE_length, siginfoSize]

/-- Builds the repr(C) memory of a CrashContext from typed field values (the
layout inverse of the offset accessors). -/
def mkCrashContext (ctx : Fin (256 ^ ucontextSize)) (fl : Fin (256 ^ fpregsetSize))
    (si : SigInfo) (tid : Fin (256 ^ 4)) : CrashContext :=
  ⟨toLE ucontextSize ctx.val ++ toLE fpregsetSize fl.val ++ si.encode ++ toLE 4 tid.val, by
    simp only [List.length_append, toLE_length, SigInfo.encode_length]
    rfl⟩

theorem drop_append_len {α : Type} (l₁ l₂ : List α) (m : Nat) :
    (l₁ ++ l₂).drop (l₁.length + m) = l₂.drop m := by
  induction l₁ with
  | nil => simp
  | cons a l ih => simpa [Nat.succ_add] using ih

theorem take_append_len {α : Type} (l₁ l₂ : List α) : (l₁ ++ l₂).take l₁.length = l₁ := by
  induction l₁ with
  | nil => simp
  | cons a l ih => simp [ih]

/-- Reading at an append boundary recovers the encoded segment's value. -/
theorem readN_append (pre seg post : List Byte) (w : Nat) (hseg : seg.length = w) :
    (readN (pre ++ (seg ++ post)) pre.length w).val = fromLE seg % 256 ^ w := by
  have hdrop : (pre ++ (seg ++ post)).drop pre.length = seg ++ post := by
    have := drop_append_len pre (seg ++ post) 0
    simpa using this
  have htake : (seg ++ post).take w = seg := by
    rw [← hseg]
    exact take_append_len seg post
  simp [readN, hdrop, htake]

/-- Variant of readN_append taking the offset as an explicit equation. -/
theorem readN_at (pre seg post : List Byte) (off w : Nat)
    (hoff : pre.length = off) (hseg : seg.length = w) :
    (readN (pre ++ (seg ++ post)) off w).val = fromLE seg % 256 ^ w := by
  subst hoff
  exact readN_append pre seg post w hseg

theorem mkCrashContext_raw (ctx : Fin (256 ^ ucontextSize)) (fl : Fin (256 ^ fpregsetSize))
    (si : SigInfo) (tid : Fin (256 ^ 4)) :
    (mkCrashContext ctx fl si tid).raw =
      toLE ucontextSize ctx.val ++ (toLE fpregsetSize fl.val ++
        (toLE 4 si.ssi_signo.val ++ (toLE 4 si.ssi_errno.val ++ (toLE 4 si.ssi_code.val ++
          (toLE 4 si.ssi_pid.val ++ (toLE 112 si.rest.val ++ toLE 4 tid.val)))))) := by
  simp [mkCrashContext, SigInfo.encode, List.append_assoc]

theorem mkCrashContext_context (ctx : Fin (256 ^ ucontextSize)) (fl : Fin (256 ^ fpregsetSize))
    (si : SigInfo) (tid : Fin (256 ^ 4)) :
    (mkCrashContext ctx fl si tid).context = ctx := by
  apply Fin.ext
  rw [CrashContext.context, mkCrashContext_raw]
  have h := readN_at [] (toLE ucontextSize ctx.val)
    (toLE fpregsetSize fl.val ++
      (toLE 4 si.ssi_signo.val ++ (toLE 4 si.ssi_errno.val ++ (toLE 4 si.ssi_code.val ++
        (toLE 4 si.ssi_pid.val ++ (toLE 112 si.rest.val ++ toLE 4 tid.val))))))
    0 ucontextSize rfl (toLE_length _ _)
  simp only [List.nil_append] at h
  rw [h, fromLE_toLE ucontextSize ctx.val ctx.isLt, Nat.mod_eq_of_lt ctx.isLt]

theorem mkCrashContext_ssi_signo (ctx : Fin (256 ^ ucontextSize)) (fl : Fin (256 ^ fpregsetSize))
    (si : SigInfo) (tid : Fin (256 ^ 4)) :
    (mkCrashContext ctx fl si tid).ssi_signo = si.ssi_signo := by
  apply Fin.ext
  rw [CrashContext.ssi_signo, mkCrashContext_raw]
  have h := readN_at (toLE ucontextSize ctx.val ++ toLE fpregsetSize fl.val)
    (toLE 4 si.ssi_signo.val)
    (toLE 4 si.ssi_errno.val ++ (toLE 4 si.ssi_code.val ++
      (toLE 4 si.ssi_pid.val ++ (toLE 112 si.rest.val ++ toLE 4 tid.val))))
    (ucontextSize + fpregsetSize) 4 (by simp [toLE_length]) (toLE_length _ _)
  have hassoc :
      toLE ucontextSize ctx.val ++ (toLE fpregsetSize fl.val ++
        (toLE 4 si.ssi_signo.val ++ (toLE 4 si.ssi_errno.val ++ (toLE 4 si.ssi_code.val ++
          (toLE 4 si.ssi_pid.val ++ (toLE 112 si.rest.val ++ toLE 4 tid.val)))))) =
      (toLE ucontextSize ctx.val ++ toLE fpregsetSize fl.val) ++
      (toLE 4 si.ssi_signo.val ++
        (toLE 4 si.ssi_errno.val ++ (toLE 4 si.ssi_code.val ++
          (toLE 4 si.ssi_pid.val ++ (toLE 112 si.rest.val ++ toLE 4 tid.val))))) := by
    simp [List.append_assoc]
  rw [hassoc, h, fromLE_toLE 4 _ si.ssi_signo.isLt, Nat.mod_eq_of_lt si.ssi_signo.isLt]

theorem mkCrashContext_ssi_code (ctx : Fin (256 ^ ucontextSize)) (fl : Fin (256 ^ fpregsetSize))
    (si : SigInfo) (tid : Fin (256 ^ 4)) :
    (mkCrashContext ctx fl si tid).ssi_code = si.ssi_code := by
  apply Fin.ext
  rw [CrashContext.ssi_code, mkCrashContext_raw]
  have h := readN_at
    (toLE ucontextSize ctx.val ++ (toLE fpregsetSize fl.val ++
      (toLE 4 si.ssi_signo.val ++ toLE 4 si.ssi_errno.val)))
    (toLE 4 si.ssi_code.val)
    (toLE 4 si.ssi_pid.val ++ (toLE 112 si.rest.val ++ toLE 4 tid.val))
    (ucontextSize + fpregsetSize + 8) 4
    (by simp [toLE_length]; rfl) (toLE_length _ _)
  have hassoc :
      toLE ucontextSize ctx.val ++ (toLE fpregsetSize fl.val ++
        (toLE 4 si.ssi_signo.val ++ (toLE 4 si.ssi_errno.val ++ (toLE 4 si.ssi_code.val ++
          (toLE 4 si.ssi_pid.val ++ (toLE 112 si.rest.val ++ toLE 4 tid.val)))))) =
      (toLE ucontextSize ctx.val ++ (toLE fpregsetSize fl.val ++
        (toLE 4 si.ssi_signo.val ++ toLE 4 si.ssi_errno.val))) ++
      (toLE 4 si.ssi_code.val ++
        (toLE 4 si.ssi_pid.val ++ (toLE 112 si.rest.val ++ toLE 4 tid.val))) := by
    simp [List.append_assoc]
  rw [hassoc, h, fromLE_toLE 4 _ si.ssi_code.isLt, Nat.mod_eq_of_lt si.ssi_code.isLt]

theorem mkCrashContext_ssi_pid (ctx : Fin (256 ^ ucontextSize)) (fl : Fin (256 ^ fpregsetSize))
    (si : SigInfo) (tid : Fin (256 ^ 4)) :
    (mkCrashContext ctx fl si tid).ssi_pid = si.ssi_pid := by
  apply Fin.ext
  rw [CrashContext.ssi_pid, mkCrashContext_raw]
  have h := readN_at
    (toLE ucontextSize ctx.val ++ (toLE fpregsetSize fl.val ++
      (toLE 4 si.ssi_signo.val ++ (toLE 4 si.ssi_errno.val ++ toLE 4 si.ssi_code.val))))
    (toLE 4 si.ssi_pid.val)
    (toLE 112 si.rest.val ++ toLE 4 tid.val)
    (ucontextSize + fpregsetSize + 12) 4
    (by simp [toLE_length]; rfl) (toLE_length _ _)
  have hassoc :
      toLE ucontextSize ctx.val ++ (toLE fpregsetSize fl.val ++
        (toLE 4 si.ssi_signo.val ++ (toLE 4 si.ssi_errno.val ++ (toLE 4 si.ssi_code.val ++
          (toLE 4 si.ssi_pid.val ++ (toLE 112 si.rest.val ++ toLE 4 tid.val)))))) =
      (toLE ucontextSize ctx.val ++ (toLE fpregsetSize fl.val ++
        (toLE 4 si.ssi_signo.val ++ (toLE 4 si.ssi_errno.val ++ toLE 4 si.ssi_code.val)))) ++
      (toLE 4 si.ssi_pid.val ++ (toLE 112 si.rest.val ++ toLE 4 tid.val)) := by
    simp [List.append_assoc]
  rw [hassoc, h, fromLE_toLE 4 _ si.ssi_pid.isLt, Nat.mod_eq_of_lt si.ssi_pid.isLt]

theorem mkCrashContext_tid (ctx : Fin (256 ^ ucontextSize)) (fl : Fin (256 ^ fpregsetSize))
    (si : SigInfo) (tid : Fin (256 ^ 4)) :
    (mkCrashContext ctx fl si tid).tid = tid := by
  apply Fin.ext
  rw [CrashContext.tid, mkCrashContext_raw]
  have h := readN_at
    (toLE ucontextSize ctx.val ++ (toLE fpregsetSize fl.val ++
      (toLE 4 si.ssi_signo.val ++ (toLE 4 si.ssi_errno.val ++ (toLE 4 si.ssi_code.val ++
        (toLE 4 si.ssi_pid.val ++ toLE 112 si.rest.val))))))
    (toLE 4 tid.val) []
    (ucontextSize + fpregsetSize + siginfoSize) 4
    (by simp [toLE_length]; rfl) (toLE_length _ _)
  have hassoc :
      toLE ucontextSize ctx.val ++ (toLE fpregsetSize fl.val ++
        (toLE 4 si.ssi_signo.val ++ (toLE 4 si.ssi_errno.val ++ (toLE 4 si.ssi_code.val ++
          (toLE 4 si.ssi_pid.val ++ (toLE 112 si.rest.val ++ toLE 4 tid.val)))))) =
      (toLE ucontextSize ctx.val ++ (toLE fpregsetSize fl.val ++
        (toLE 4 si.ssi_signo.val ++ (toLE 4 si.ssi_errno.val ++ (toLE 4 si.ssi_code.val ++
          (toLE 4 si.ssi_pid.val ++ toLE 112 si.rest.val)))))) ++
      (toLE 4 tid.val ++ []) := by
    simp [List.append_assoc]
  rw [hassoc, h, fromLE_toLE 4 _ tid.isLt, Nat.mod_eq_of_lt tid.isLt]

/-- A zero byte. -/
def byte0 : Byte := ⟨0, by omega⟩

/-- C4: for every byte buffer whose length differs from
size_of::<CrashContext>() — including zero-length and off-by-one lengths —
CrashContext::from_bytes returns None without interpreting any of the
buffer's bytes as a CrashContext. -/
theorem from_bytes_wrong_length (bytes : List Byte)
    (h : bytes.length ≠ crashContextSize) :
    CrashContext.from_bytes bytes = none := by
  simp [CrashContext.from_bytes, h]

/-- Witness for C4: the zero-length buffer and both off-by-one lengths are
rejected. -/
theorem from_bytes_wrong_length_witness :
    CrashContext.from_bytes [] = none ∧
    CrashContext.from_bytes (List.replicate 1107 byte0) = none ∧
    CrashContext.from_bytes (List.replicate 1109 byte0) = none :=
  ⟨from_bytes_wrong_length [] (by decide),
   from_bytes_wrong_length _ (by simp [List.length_replicate]; decide),
   from_bytes_wrong_length _ (by simp [List.length_replicate]; decide)⟩

/-- C5: for every CrashContext value c, from_bytes (c.as_bytes()) returns
Some of a value bit-identical to c: the byte view round-trips losslessly
through parsing. -/
theorem from_bytes_as_bytes (c : CrashContext) :
    CrashContext.from_bytes c.as_bytes = some c := by
  cases c with
  | mk raw hr => simp [CrashContext.from_bytes, CrashContext.as_bytes, hr]

/-- C9: as_bytes returns the struct's own memory — in the byte embedding the
identity view of the representation, with no copying construction — and its
length is exactly size_of::<CrashContext>(). -/
theorem as_bytes_own_memory (c : CrashContext) :
    c.as_bytes = c.raw ∧ c.as_bytes.length = crashContextSize :=
  ⟨rfl, c.raw_size⟩

/-- C10: from_bytes is total and accepts solely on length: every buffer of
exactly size_of::<CrashContext>() bytes yields Some regardless of contents —
the None branch is unreachable under the length precondition. -/
theorem from_bytes_exact_length (bytes : List Byte)
    (h : bytes.length = crashContextSize) :
    CrashContext.from_bytes bytes = some ⟨bytes, h⟩ := by
  simp [CrashContext.from_bytes, h]

/-- Witness for C10: an arbitrary correctly-sized byte pattern is accepted. -/
theorem from_bytes_exact_length_witness :
    CrashContext.from_bytes (List.replicate crashContextSize byte0) =
      some ⟨List.replicate crashContextSize byte0, List.length_replicate _ _⟩ :=
  from_bytes_exact_length _ (List.length_replicate _ _)

/-- Modelled from the spec: crate::Error, whose definition lives outside the
platform sources.  A single installation-failure kind, raised only from
attach (spec section 7). -/
inductive Error where
  | installation
deriving DecidableEq

/-- Modelled from the spec: state::HandlerInner, a registry entry owning
exactly one boxed CrashEvent implementation (spec section 3).  `id` models
the address of the Arc allocation, so that Arc::ptr_eq is id equality. -/
structure HandlerInner where
  id : Nat
  on_crash : CrashContext → Bool

/-- A Weak<HandlerInner> element of state::HANDLER_STACK.  `alive` records
whether a strong Arc to the allocation still exists, i.e. whether upgrade()
succeeds. -/
structure WeakHandler where
  inner : HandlerInner
  alive : Bool

/-- Weak::upgrade, resolving the non-owning reference. -/
def WeakHandler.upgrade (w : WeakHandler) : Option HandlerInner :=
  if w.alive then some w.inner else none

/-- Modelled from the spec: the process-wide mutable state (spec sections 3
and 5) — state::HANDLER_STACK, the ordered registration list (attachment
order, oldest first, push appends), together with the installed/uninstalled
state of the alternate signal stack and of the OS signal dispositions.
`nextId` is a fresh-allocation counter realizing the distinct addresses of
Arc allocations. -/
structure GlobalState where
  handlerStack : List WeakHandler
  altStackInstalled : Bool
  handlersInstalled : Bool
  nextId : Nat

/-- The process-wide state before any handler was ever attached. -/
def initialState : GlobalState := ⟨[], false, false, 0⟩

/-- Modelled from the spec: state::install_sigaltstack — allocate and
activate the alternate signal stack, a no-op when one is already installed;
`fails` is an oracle deciding whether the allocation would fail (spec
sections 4.4 and 7).  Failure leaves the process state unchanged. -/
def install_sigaltstack (st : GlobalState) (fails : Bool) : Except Error GlobalState :=
  if st.altStackInstalled then .ok st
  else if fails then .error .installation
  else .ok { st with altStackInstalled := true }

/-- Modelled from the spec: state::install_handlers — install OS-level
handlers for every tracked signal, preserving the previously-installed
dispositions; a no-op when already installed.  Infallible, matching its call
shape in ExceptionHandler::attach. -/
def install_handlers (st : GlobalState) : GlobalState :=
  if st.handlersInstalled then st else { st with handlersInstalled := true }

/-- Modelled from the spec: state::restore_sigaltstack — release the
alternate stack, returning that part of the process to its pre-installation
state. -/
def restore_sigaltstack (st : GlobalState) : GlobalState :=
  { st with altStackInstalled := false }

/-- Modelled from the spec: state::restore_handlers — restore the
previously-saved OS signal dispositions. -/
def restore_handlers (st : GlobalState) : GlobalState :=
  { st with handlersInstalled := false }

/-- ExceptionHandler from linux.rs: the per-registration owning handle;
`inner` is its strong Arc<HandlerInner>. -/
structure ExceptionHandler where
  inner : HandlerInner

/-- ExceptionHandler::attach from linux.rs: install the sigaltstack and the
OS handlers, create the registry entry owning the callback, push a weak
reference to it onto HANDLER_STACK, and return the owning handle.  The
global state is threaded explicitly; `sigaltstackFails` is the failure
oracle of the stack allocation. -/
def ExceptionHandler.attach (on_crash : CrashContext → Bool) (st : GlobalState)
    (sigaltstackFails : Bool) : Except Error ExceptionHandler × GlobalState :=
  match install_sigaltstack st sigaltstackFails with
  | .error e => (.error e, st)
  | .ok st₁ =>
      let st₂ := install_handlers st₁
      let inner : HandlerInner := ⟨st₂.nextId, on_crash⟩
      (.ok ⟨inner⟩,
        { st₂ with
          handlerStack := st₂.handlerStack ++ [⟨inner, true⟩]
          nextId := st₂.nextId + 1 })

/-- ExceptionHandler::do_detach from linux.rs: find the position of the
first stack entry whose weak reference upgrades to this handle's allocation
(Arc::ptr_eq), remove it, and if the stack is now empty restore the
sigaltstack and the prior OS dispositions. -/
def ExceptionHandler.do_detach (self : ExceptionHandler) (st : GlobalState) : GlobalState :=
  match List.findIdx?
      (fun w => (w.upgrade.map fun handler => handler.id == self.inner.id).getD false)
      st.handlerStack 0 with
  | some ind =>
      let stack := st.handlerStack.eraseIdx ind
      if stack.isEmpty then
        restore_handlers (restore_sigaltstack { st with handlerStack := stack })
      else
        { st with handlerStack := stack }
  | none => st

/-- ExceptionHandler::detach from linux.rs: the explicit detach entry point;
it consumes the handle, so in Rust the drop glue still runs afterwards. -/
def ExceptionHandler.detach (self : ExceptionHandler) (st : GlobalState) : GlobalState :=
  self.do_detach st

/-- Drop::drop for ExceptionHandler from linux.rs. -/
def ExceptionHandler.dropHandler (self : ExceptionHandler) (st : GlobalState) : GlobalState :=
  self.do_detach st

/-- The complete effect of calling h.detach() in Rust: the explicit
do_detach followed by the drop glue's do_detach when the consumed value goes
out of scope. -/
def ExceptionHandler.detachThenDrop (self : ExceptionHandler) (st : GlobalState) : GlobalState :=
  self.dropHandler (self.detach st)

/-- Signal from linux.rs: the closed set of interceptable signals, each with
its libc discriminant (Linux numeric values). -/
inductive Signal where
  | Hup
  | Int
  | Quit
  | Ill
  | Trap
  | Abort
  | Bus
  | Fpe
  | Kill
  | Segv
  | Pipe
  | Alarm
  | Term
deriving DecidableEq

/-- The numeric value of `signal as i32` in simulate_signal. -/
def Signal.toI32 : Signal → Nat
  | .Hup => 1
  | .Int => 2
  | .Quit => 3
  | .Ill => 4
  | .Trap => 5
  | .Abort => 6
  | .Bus => 7
  | .Fpe => 8
  | .Kill => 9
  | .Segv => 11
  | .Pipe => 13
  | .Alarm => 14
  | .Term => 15

/-- Modelled from the spec: state::SI_USER, the siginfo code identifying a
user-sent (non-crash) signal; 0 on Linux. -/
def SI_USER : Fin (256 ^ 4) := ⟨0, pow_pos (by omega) 4⟩

/-- Modelled from the spec: one step of the Dispatcher chain walk (spec
section 4.5, steps 2 to 4) over an already-reversed registry suffix: resolve
each entry's weak reference, skipping it silently when it no longer
resolves, invoke on_crash, and stop as soon as one returns true.  Returns
the handled flag together with (as instrumentation for the ordering
properties) the ids of the handlers invoked, in invocation order. -/
def walk (cc : CrashContext) : List WeakHandler → Bool × List Nat
  | [] => (false, [])
  | w :: rest =>
      match w.upgrade with
      | none => walk cc rest
      | some handler =>
          if handler.on_crash cc then (true, [handler.id])
          else
            let r := walk cc rest
            (r.1, handler.id :: r.2)

/-- Modelled from the spec: the float state the Dispatcher reads out of the
raw machine-context input when assembling the CrashContext (spec section
4.5, step 1). -/
def fpFromContext (u : Fin (256 ^ ucontextSize)) : Fin (256 ^ fpregsetSize) :=
  ⟨u.val % 256 ^ fpregsetSize, Nat.mod_lt _ (pow_pos (by omega) fpregsetSize)⟩

/-- Modelled from the spec: the Dispatcher, HandlerInner::handle_signal of
the missing state module (spec section 4.5) — identical call shape whether
triggered by the OS or by simulate_signal: assemble a CrashContext from the
raw siginfo and machine-context inputs plus the current thread id, then walk
the registry most-recently-attached first.  `sig` is the platform signal
number argument of the call shape.  The instrumented variant also returns
the ids invoked. -/
def handle_signalTrace (st : GlobalState) (sig : Nat) (siginfo : SigInfo)
    (context : Fin (256 ^ ucontextSize)) (tid : Fin (256 ^ 4)) : Bool × List Nat :=
  let cc := mkCrashContext context (fpFromContext context) siginfo tid
  walk cc st.handlerStack.reverse

/-- The handled/unhandled result of the Dispatcher. -/
def handle_signal (st : GlobalState) (sig : Nat) (siginfo : SigInfo)
    (context : Fin (256 ^ ucontextSize)) (tid : Fin (256 ^ 4)) : Bool :=
  (handle_signalTrace st sig siginfo context tid).1

/-- The signal-metadata record synthesized by ExceptionHandler::simulate_signal
in linux.rs: mem::zeroed, then ssi_code := SI_USER and ssi_pid := process id. -/
def simulatedSiginfo (pid : Fin (256 ^ 4)) : SigInfo :=
  { ssi_signo := ⟨0, pow_pos (by omega) 4⟩
    ssi_errno := ⟨0, pow_pos (by omega) 4⟩
    ssi_code := SI_USER
    ssi_pid := pid
    rest := ⟨0, pow_pos (by omega) 112⟩ }

/-- ExceptionHandler::simulate_signal from linux.rs, instrumented with the
invocation trace: synthesize the siginfo record, snapshot the calling
thread's current register state with uctx::getcontext (modelled by the
`currentContext` input), and invoke the dispatch routine.  `pid` models
std::process::id(); `tid` models the calling thread's id read by the
Dispatcher. -/
def ExceptionHandler.simulate_signalTrace (self : ExceptionHandler) (st : GlobalState)
    (signal : Signal) (pid : Fin (256 ^ 4)) (currentContext : Fin (256 ^ ucontextSize))
    (tid : Fin (256 ^ 4)) : Bool × List Nat :=
  handle_signalTrace st signal.toI32 (simulatedSiginfo pid) currentContext tid

/-- ExceptionHandler::simulate_signal from linux.rs: the boolean
handled/unhandled result. -/
def ExceptionHandler.simulate_signal (self : ExceptionHandler) (st : GlobalState)
    (signal : Signal) (pid : Fin (256 ^ 4)) (currentContext : Fin (256 ^ ucontextSize))
    (tid : Fin (256 ^ 4)) : Bool :=
  (self.simulate_signalTrace st signal pid currentContext tid).1

/-- The matching predicate of do_detach, reduced: an entry matches when its
weak reference still resolves and the resolved allocation is the handle's
one. -/
theorem detachPred_eq (self : ExceptionHandler) (w : WeakHandler) :
    ((w.upgrade.map fun handler => handler.id == self.inner.id).getD false)
      = (w.alive && (w.inner.id == self.inner.id)) := by
  cases w with
  | mk inner alive => cases alive <;> simp [WeakHandler.upgrade]

theorem findIdx?_cons_true {α : Type} (p : α → Bool) (a : α) (l : List α) (i : Nat)
    (h : p a = true) : List.findIdx? p (a :: l) i = some i := by
  simp [List.findIdx?_cons, h]

theorem findIdx?_none {α : Type} (p : α → Bool) (l : List α) (i : Nat)
    (h : ∀ x ∈ l, p x = false) : List.findIdx? p l i = none := by
  induction l generalizing i with
  | nil => rfl
  | cons a l ih =>
      rw [List.findIdx?_cons]
      simp only [h a (by simp)]
      exact ih (i + 1) fun x hx => h x (by simp [hx])

theorem findIdx?_append_false {α : Type} (p : α → Bool) (l₁ l₂ : List α) (i : Nat)
    (h : ∀ x ∈ l₁, p x = false) :
    List.findIdx? p (l₁ ++ l₂) i = List.findIdx? p l₂ (i + l₁.length) := by
  induction l₁ generalizing i with
  | nil => simp
  | cons a l ih =>
      rw [List.cons_append, List.findIdx?_cons]
      simp only [h a (by simp)]
      rw [ih (i + 1) fun x hx => h x (by simp [hx])]
      have harg : i + 1 + l.length = i + (a :: l).length := by
        simp [List.length_cons]
        omega
      rw [harg]
      simp

theorem findIdx?_some_decomp {α : Type} (p : α → Bool) (l : List α) (i j : Nat)
    (h : List.findIdx? p l i = some j) :
    ∃ l₁ x l₂, l = l₁ ++ x :: l₂ ∧ j = i + l₁.length ∧ p x = true ∧
      ∀ y ∈ l₁, p y = false := by
  induction l generalizing i with
  | nil => simp [List.findIdx?] at h
  | cons a l ih =>
      rw [List.findIdx?_cons] at h
      by_cases hpa : p a = true
      · refine ⟨[], a, l, by simp, ?_, hpa, by simp⟩
        simp [hpa] at h
        simp
        omega
      · simp only [Bool.not_eq_true] at hpa
        simp only [hpa, if_false] at h
        obtain ⟨l₁, x, l₂, hl, hj, hpx, hall⟩ := ih (i + 1) h
        refine ⟨a :: l₁, x, l₂, by simp [hl], by simp [hj]; omega, hpx, ?_⟩
        intro y hy
        rcases List.mem_cons.mp hy with hy | hy
        · subst hy; exact hpa
        · exact hall y hy

theorem eraseIdx_append_len {α : Type} (l₁ l₂ : List α) (n : Nat) :
    (l₁ ++ l₂).eraseIdx (l₁.length + n) = l₁ ++ l₂.eraseIdx n := by
  induction l₁ with
  | nil => simp
  | cons a l ih => simp [List.eraseIdx, Nat.succ_add, ih]

theorem isEmpty_append_singleton {α : Type} (l : List α) (x : α) :
    (l ++ [x]).isEmpty = false := by
  cases l <;> rfl

theorem eraseIdx_append_len0 {α : Type} (l₁ l₂ : List α) :
    (l₁ ++ l₂).eraseIdx l₁.length = l₁ ++ l₂.eraseIdx 0 := by
  have h := eraseIdx_append_len l₁ l₂ 0
  simpa using h

/-- Inversion of a successful install_sigaltstack: only the alternate-stack
flag may change. -/
theorem install_sigaltstack_ok_inv (st : GlobalState) (f : Bool) (st₁ : GlobalState)
    (h : install_sigaltstack st f = .ok st₁) :
    st₁.handlerStack = st.handlerStack ∧ st₁.nextId = st.nextId ∧
      st₁.handlersInstalled = st.handlersInstalled ∧ st₁.altStackInstalled = true ∨
    st₁ = st ∧ st.altStackInstalled = true := by
  unfold install_sigaltstack at h
  by_cases ha : st.altStackInstalled
  · simp [ha] at h
    right
    exact ⟨h.symm, ha⟩
  · simp only [ha, if_false, Bool.false_eq_true] at h
    by_cases hf : f
    · simp [hf] at h
    · simp [hf] at h
      left
      rw [← h]
      simp

theorem install_handlers_fields (st : GlobalState) :
    (install_handlers st).handlerStack = st.handlerStack ∧
      (install_handlers st).nextId = st.nextId ∧
      (install_handlers st).altStackInstalled = st.altStackInstalled := by
  unfold install_handlers
  split <;> simp

/-- Inversion of a successful attach: the returned handle owns a fresh
allocation carrying the supplied callback, and the registry gained exactly
one live entry for it at the end of the stack. -/
theorem attach_ok_inv (cb : CrashContext → Bool) (st : GlobalState) (f : Bool)
    (hh : ExceptionHandler) (st' : GlobalState)
    (h : ExceptionHandler.attach cb st f = (.ok hh, st')) :
    hh.inner = ⟨st.nextId, cb⟩ ∧
      st'.handlerStack = st.handlerStack ++ [⟨⟨st.nextId, cb⟩, true⟩] ∧
      st'.nextId = st.nextId + 1 := by
  unfold ExceptionHandler.attach at h
  cases hc : install_sigaltstack st f with
  | error e => rw [hc] at h; simp at h
  | ok st₁ =>
      rw [hc] at h
      simp only [Prod.mk.injEq, Except.ok.injEq] at h
      obtain ⟨hhh, hst⟩ := h
      have hfields := install_handlers_fields st₁
      rcases install_sigaltstack_ok_inv st f st₁ hc with
        ⟨hs, hn, _, _⟩ | ⟨heq, _⟩
      · constructor
        · rw [← hhh]
          simp [hfields.2.1, hn]
        · rw [← hst]
          simp [hfields.1, hfields.2.1, hs, hn]
      · subst heq
        constructor
        · rw [← hhh]
          simp [hfields.2.1]
        · rw [← hst]
          simp [hfields.1, hfields.2.1]

/-- The registry entries whose weak reference still resolves, listed
most-recently-attached first: exactly the handlers the Dispatcher consults,
in consultation order. -/
def aliveRev (stack : List WeakHandler) : List WeakHandler :=
  (stack.filter fun w => w.alive).reverse

theorem mem_aliveRev_alive (stack : List WeakHandler) :
    ∀ w ∈ aliveRev stack, w.alive = true := by
  intro w hw
  simp only [aliveRev, List.mem_reverse, List.mem_filter] at hw
  exact hw.2

/-- Stale entries are skipped silently: the walk only sees the entries whose
weak reference resolves. -/
theorem walk_filter (cc : CrashContext) (l : List WeakHandler) :
    walk cc l = walk cc (l.filter fun w => w.alive) := by
  induction l with
  | nil => rfl
  | cons w rest ih =>
      cases hw : w.alive with
      | false => simp [walk, WeakHandler.upgrade, hw, List.filter_cons, ih]
      | true =>
          cases hcb : w.inner.on_crash cc <;>
            simp [walk, WeakHandler.upgrade, hw, hcb, List.filter_cons, ih]

theorem walk_reverse_alive (cc : CrashContext) (stack : List WeakHandler) :
    walk cc stack.reverse = walk cc (aliveRev stack) := by
  rw [walk_filter]
  simp [List.filter_reverse, aliveRev]

theorem walk_fst (cc : CrashContext) (l : List WeakHandler)
    (ha : ∀ w ∈ l, w.alive = true) :
    (walk cc l).1 = l.any fun w => w.inner.on_crash cc := by
  induction l with
  | nil => rfl
  | cons w rest ih =>
      have hw := ha w (by simp)
      cases hcb : w.inner.on_crash cc <;>
        simp [walk, WeakHandler.upgrade, hw, hcb,
          ih fun x hx => ha x (by simp [hx])]

theorem walk_all_false (cc : CrashContext) (l : List WeakHandler)
    (ha : ∀ w ∈ l, w.alive = true)
    (hf : ∀ w ∈ l, w.inner.on_crash cc = false) :
    walk cc l = (false, l.map fun w => w.inner.id) := by
  induction l with
  | nil => rfl
  | cons w rest ih =>
      have hw := ha w (by simp)
      have hcb := hf w (by simp)
      simp [walk, WeakHandler.upgrade, hw, hcb,
        ih (fun x hx => ha x (by simp [hx])) (fun x hx => hf x (by simp [hx]))]

theorem walk_first_true (cc : CrashContext) (l₁ : List WeakHandler)
    (w : WeakHandler) (l₂ : List WeakHandler)
    (ha : ∀ x ∈ l₁ ++ w :: l₂, x.alive = true)
    (hf : ∀ x ∈ l₁, x.inner.on_crash cc = false)
    (hw : w.inner.on_crash cc = true) :
    walk cc (l₁ ++ w :: l₂) = (true, (l₁.map fun x => x.inner.id) ++ [w.inner.id]) := by
  induction l₁ with
  | nil => simp [walk, WeakHandler.upgrade, ha w (by simp), hw]
  | cons x rest ih =>
      have hx := ha x (by simp)
      have hcb := hf x (by simp)
      simp [walk, WeakHandler.upgrade, hx, hcb,
        ih (fun y hy => ha y (by simp [hy])) (fun y hy => hf y (by simp [hy]))]

/-- The CrashContext the Dispatcher assembles for a simulated signal: the
getcontext snapshot, the float state read from it, the synthesized siginfo,
and the calling thread's id. -/
def simulatedCrashContext (pid : Fin (256 ^ 4)) (ctx : Fin (256 ^ ucontextSize))
    (tid : Fin (256 ^ 4)) : CrashContext :=
  mkCrashContext ctx (fpFromContext ctx) (simulatedSiginfo pid) tid

/-- C1: ExceptionHandler::simulate_signal invokes the same dispatch path
the OS would have invoked: it walks all registered (still-resolving)
handlers most-recently-attached first, stops as soon as one handler's
on_crash returns true, and returns whether any handler claimed the signal;
if every handler returns false each attached handler is invoked exactly
once. -/
theorem simulate_signal_dispatch (self : ExceptionHandler) (st : GlobalState)
    (signal : Signal) (pid : Fin (256 ^ 4)) (ctx : Fin (256 ^ ucontextSize))
    (tid : Fin (256 ^ 4))
    (hids : (st.handlerStack.map fun w => w.inner.id).Nodup) :
    self.simulate_signalTrace st signal pid ctx tid =
        walk (simulatedCrashContext pid ctx tid) (aliveRev st.handlerStack)
    ∧ (self.simulate_signalTrace st signal pid ctx tid).1 =
        ((aliveRev st.handlerStack).any
          fun w => w.inner.on_crash (simulatedCrashContext pid ctx tid))
    ∧ (∀ l₁ w l₂, aliveRev st.handlerStack = l₁ ++ w :: l₂ →
        (∀ x ∈ l₁, x.inner.on_crash (simulatedCrashContext pid ctx tid) = false) →
        w.inner.on_crash (simulatedCrashContext pid ctx tid) = true →
        (self.simulate_signalTrace st signal pid ctx tid).2 =
          (l₁.map fun x => x.inner.id) ++ [w.inner.id])
    ∧ ((∀ w ∈ aliveRev st.handlerStack,
          w.inner.on_crash (simulatedCrashContext pid ctx tid) = false) →
        (self.simulate_signalTrace st signal pid ctx tid).2 =
            ((aliveRev st.handlerStack).map fun w => w.inner.id)
          ∧ ∀ w ∈ aliveRev st.handlerStack,
              ((self.simulate_signalTrace st signal pid ctx tid).2).count w.inner.id
                = 1) := by
  have hstep : self.simulate_signalTrace st signal pid ctx tid =
      walk (simulatedCrashContext pid ctx tid) (aliveRev st.handlerStack) := by
    have h0 : self.simulate_signalTrace st signal pid ctx tid =
        walk (simulatedCrashContext pid ctx tid) st.handlerStack.reverse := rfl
    rw [h0, walk_reverse_alive]
  refine ⟨hstep, ?_, ?_, ?_⟩
  · rw [hstep, walk_fst _ _ (mem_aliveRev_alive st.handlerStack)]
  · intro l₁ w l₂ hdec hf hw
    rw [hstep, hdec, walk_first_true _ _ _ _
      (fun x hx => mem_aliveRev_alive st.handlerStack x (by rw [hdec]; exact hx)) hf hw]
  · intro hf
    have hall := walk_all_false (simulatedCrashContext pid ctx tid)
      (aliveRev st.handlerStack) (mem_aliveRev_alive _) hf
    have hsub : List.Sublist
        ((st.handlerStack.filter fun w => w.alive).map fun w => w.inner.id)
        (st.handlerStack.map fun w => w.inner.id) :=
      List.Sublist.map _ (List.filter_sublist st.handlerStack)
    have hnod : ((aliveRev st.handlerStack).map fun w => w.inner.id).Nodup := by
      rw [aliveRev, List.map_reverse]
      exact List.nodup_reverse.mpr (List.Nodup.sublist hsub hids)
    refine ⟨by rw [hstep, hall], fun w hw => ?_⟩
    rw [hstep, hall]
    exact List.count_eq_one_of_mem hnod (List.mem_map_of_mem _ hw)

/-- Witness for C1: with handlers of ids 0, 1, 2 attached in that order
(callbacks false, true, false), a simulated signal invokes id 2 first, then
id 1 which claims it, and stops: the invocation trace is [2, 1]. -/
theorem simulate_signal_dispatch_witness :
    (ExceptionHandler.simulate_signalTrace ⟨⟨0, fun _ => false⟩⟩
        ⟨[⟨⟨0, fun _ => false⟩, true⟩, ⟨⟨1, fun _ => true⟩, true⟩,
          ⟨⟨2, fun _ => false⟩, true⟩], true, true, 3⟩
        .Segv ⟨0, pow_pos (by omega) 4⟩ ⟨0, pow_pos (by omega) ucontextSize⟩
        ⟨0, pow_pos (by omega) 4⟩).2 = [2, 1] := by
  have h := simulate_signal_dispatch ⟨⟨0, fun _ => false⟩⟩
    ⟨[⟨⟨0, fun _ => false⟩, true⟩, ⟨⟨1, fun _ => true⟩, true⟩,
      ⟨⟨2, fun _ => false⟩, true⟩], true, true, 3⟩
    .Segv ⟨0, pow_pos (by omega) 4⟩ ⟨0, pow_pos (by omega) ucontextSize⟩
    ⟨0, pow_pos (by omega) 4⟩ (by simp)
  exact h.2.2.1 [⟨⟨2, fun _ => false⟩, true⟩] ⟨⟨1, fun _ => true⟩, true⟩
    [⟨⟨0, fun _ => false⟩, true⟩] rfl
    (by intro x hx; rw [List.mem_singleton] at hx; subst hx; rfl) rfl

/-- C8: simulate_signal is infallible — for every Signal it returns the
boolean handled/unhandled result of the dispatch routine — and the record it
dispatches reflects the simulating process, not a real crash: the
synthesized siginfo carries code SI_USER with the originating pid set to the
current process id, and the machine context dispatched is the getcontext
snapshot of the calling thread's current register state. -/
theorem simulate_signal_record (self : ExceptionHandler) (st : GlobalState)
    (signal : Signal) (pid : Fin (256 ^ 4)) (ctx : Fin (256 ^ ucontextSize))
    (tid : Fin (256 ^ 4)) :
    self.simulate_signal st signal pid ctx tid =
        handle_signal st signal.toI32 (simulatedSiginfo pid) ctx tid
    ∧ (simulatedSiginfo pid).ssi_code = SI_USER
    ∧ (simulatedSiginfo pid).ssi_pid = pid
    ∧ (simulatedCrashContext pid ctx tid).ssi_code = SI_USER
    ∧ (simulatedCrashContext pid ctx tid).ssi_pid = pid
    ∧ (simulatedCrashContext pid ctx tid).context = ctx
    ∧ handle_signalTrace st signal.toI32 (simulatedSiginfo pid) ctx tid =
        walk (simulatedCrashContext pid ctx tid) st.handlerStack.reverse := by
  exact ⟨rfl, rfl, rfl,
    mkCrashContext_ssi_code ctx (fpFromContext ctx) (simulatedSiginfo pid) tid,
    mkCrashContext_ssi_pid ctx (fpFromContext ctx) (simulatedSiginfo pid) tid,
    mkCrashContext_context ctx (fpFromContext ctx) (simulatedSiginfo pid) tid, rfl⟩

/-- The process-wide installed/uninstalled state as a single flag: both
OS-level artifacts (alternate stack and signal dispositions) present. -/
def GlobalState.installedB (st : GlobalState) : Bool :=
  st.altStackInstalled && st.handlersInstalled

/-- The bookkeeping invariant of the global state (spec sections 3 and 5):
the process-wide artifacts exist exactly while the registry list is
nonempty. -/
def InstallInv (st : GlobalState) : Prop :=
  st.altStackInstalled = !st.handlerStack.isEmpty ∧
    st.handlersInstalled = !st.handlerStack.isEmpty

/-- The observable content of the registry: per entry, whether it resolves
and which callback it runs (erasing the model's allocation ids). -/
def obsEntries (st : GlobalState) : List (Bool × (CrashContext → Bool)) :=
  st.handlerStack.map fun w => (w.alive, w.inner.on_crash)

/-- Whether an attach result is a success. -/
def isOkE (r : Except Error ExceptionHandler) : Bool :=
  match r with
  | .ok _ => true
  | .error _ => false

theorem install_handlers_installed (st : GlobalState) :
    (install_handlers st).handlersInstalled = true := by
  unfold install_handlers
  split
  · assumption
  · simp

theorem install_sigaltstack_ok_alt (st : GlobalState) (f : Bool) (st₁ : GlobalState)
    (hc : install_sigaltstack st f = .ok st₁) : st₁.altStackInstalled = true := by
  unfold install_sigaltstack at hc
  by_cases ha : st.altStackInstalled
  · simp [ha] at hc
    rw [← hc]
    exact ha
  · by_cases hf : f
    · simp [ha, hf] at hc
    · simp [ha, hf] at hc
      rw [← hc]

/-- A successful attach always leaves both installation flags set. -/
theorem attach_ok_flags (cb : CrashContext → Bool) (st : GlobalState) (f : Bool)
    (hh : ExceptionHandler) (st' : GlobalState)
    (h : ExceptionHandler.attach cb st f = (.ok hh, st')) :
    st'.altStackInstalled = true ∧ st'.handlersInstalled = true := by
  unfold ExceptionHandler.attach at h
  cases hc : install_sigaltstack st f with
  | error e => rw [hc] at h; simp at h
  | ok st₁ =>
      rw [hc] at h
      simp only [Prod.mk.injEq, Except.ok.injEq] at h
      obtain ⟨_, hst⟩ := h
      have halt := install_sigaltstack_ok_alt st f st₁ hc
      constructor
      · rw [← hst]
        show (install_handlers st₁).altStackInstalled = true
        rw [(install_handlers_fields st₁).2.2]
        exact halt
      · rw [← hst]
        show (install_handlers st₁).handlersInstalled = true
        exact install_handlers_installed st₁

/-- A failed attach leaves the global state untouched. -/
theorem attach_error_state (cb : CrashContext → Bool) (st : GlobalState) (f : Bool)
    (e : Error) (st' : GlobalState)
    (h : ExceptionHandler.attach cb st f = (.error e, st')) : st' = st := by
  unfold ExceptionHandler.attach at h
  cases hc : install_sigaltstack st f with
  | error e2 =>
      rw [hc] at h
      simp only [Prod.mk.injEq] at h
      exact h.2.symm
  | ok st₁ => rw [hc] at h; simp at h

theorem do_detach_none (h : ExceptionHandler) (st : GlobalState)
    (hfind : List.findIdx?
        (fun w => (w.upgrade.map fun handler => handler.id == h.inner.id).getD false)
        st.handlerStack 0 = none) :
    h.do_detach st = st := by
  unfold ExceptionHandler.do_detach
  rw [hfind]

theorem do_detach_some_empty (h : ExceptionHandler) (st : GlobalState) (ind : Nat)
    (hfind : List.findIdx?
        (fun w => (w.upgrade.map fun handler => handler.id == h.inner.id).getD false)
        st.handlerStack 0 = some ind)
    (hemp : (st.handlerStack.eraseIdx ind).isEmpty = true) :
    h.do_detach st = restore_handlers (restore_sigaltstack
      { st with handlerStack := st.handlerStack.eraseIdx ind }) := by
  unfold ExceptionHandler.do_detach
  rw [hfind]
  simp [hemp]

theorem do_detach_some_nonempty (h : ExceptionHandler) (st : GlobalState) (ind : Nat)
    (hfind : List.findIdx?
        (fun w => (w.upgrade.map fun handler => handler.id == h.inner.id).getD false)
        st.handlerStack 0 = some ind)
    (hemp : (st.handlerStack.eraseIdx ind).isEmpty = false) :
    h.do_detach st = { st with handlerStack := st.handlerStack.eraseIdx ind } := by
  unfold ExceptionHandler.do_detach
  rw [hfind]
  simp [hemp]

theorem findIdx?_some_ne_nil {α : Type} (p : α → Bool) (l : List α) (i j : Nat)
    (h : List.findIdx? p l i = some j) : l ≠ [] := by
  intro hl
  subst hl
  simp [List.findIdx?] at h

/-- C2: the global installed state transitions exactly on registration-count
edges: installation of the OS artifacts occurs only on the 0-to-1 edge (a
first-ever or first-after-empty attach), restoration occurs only on the
1-to-0 edge (removal of the last entry); a failed attach changes nothing;
and after the registry is empty again, attach behaves observably like a
first-ever attach. -/
theorem installed_state_edges (st : GlobalState) (cb : CrashContext → Bool)
    (f : Bool) (h : ExceptionHandler) (hinv : InstallInv st) :
    (∀ hh st', ExceptionHandler.attach cb st f = (.ok hh, st') →
        InstallInv st' ∧ ((st'.installedB ≠ st.installedB) ↔ st.handlerStack = []))
    ∧ (∀ e st', ExceptionHandler.attach cb st f = (.error e, st') → st' = st)
    ∧ (InstallInv (h.do_detach st) ∧
        (((h.do_detach st).installedB ≠ st.installedB) ↔
          (st.handlerStack ≠ [] ∧ (h.do_detach st).handlerStack = [])))
    ∧ (st.handlerStack = [] →
        isOkE (ExceptionHandler.attach cb st f).1
            = isOkE (ExceptionHandler.attach cb initialState f).1
          ∧ obsEntries (ExceptionHandler.attach cb st f).2
            = obsEntries (ExceptionHandler.attach cb initialState f).2
          ∧ (ExceptionHandler.attach cb st f).2.installedB
            = (ExceptionHandler.attach cb initialState f).2.installedB) := by
  obtain ⟨hinv1, hinv2⟩ := hinv
  refine ⟨?_, ?_, ?_, ?_⟩
  · intro hh st' ha
    have hflags := attach_ok_flags cb st f hh st' ha
    have hstk := (attach_ok_inv cb st f hh st' ha).2.1
    constructor
    · constructor
      · rw [hflags.1, hstk, isEmpty_append_singleton]
        rfl
      · rw [hflags.2, hstk, isEmpty_append_singleton]
        rfl
    · have hob : st'.installedB = true := by
        simp [GlobalState.installedB, hflags.1, hflags.2]
      have hob0 : st.installedB = !st.handlerStack.isEmpty := by
        simp [GlobalState.installedB, hinv1, hinv2]
      rw [hob, hob0]
      cases hse : st.handlerStack <;> simp [hse]
  · intro e st' ha
    exact attach_error_state cb st f e st' ha
  · cases hfind : List.findIdx?
        (fun w => (w.upgrade.map fun handler => handler.id == h.inner.id).getD false)
        st.handlerStack 0 with
    | none =>
        rw [do_detach_none h st hfind]
        refine ⟨⟨hinv1, hinv2⟩, ?_⟩
        constructor
        · intro hne
          exact absurd rfl hne
        · rintro ⟨hne, hnil⟩
          exact absurd hnil hne
    | some ind =>
        have hne : st.handlerStack ≠ [] := findIdx?_some_ne_nil _ _ _ _ hfind
        have hflags : st.altStackInstalled = true ∧ st.handlersInstalled = true := by
          cases hse : st.handlerStack with
          | nil => exact absurd hse hne
          | cons a l =>
              rw [hse] at hinv1 hinv2
              simp at hinv1 hinv2
              exact ⟨hinv1, hinv2⟩
        have hob0 : st.installedB = true := by
          simp [GlobalState.installedB, hflags.1, hflags.2]
        cases hemp : (st.handlerStack.eraseIdx ind).isEmpty with
        | true =>
            rw [do_detach_some_empty h st ind hfind hemp]
            have hnil : st.handlerStack.eraseIdx ind = [] := by
              simpa using hemp
            refine ⟨⟨?_, ?_⟩, ?_⟩
            · simp [restore_handlers, restore_sigaltstack, hemp]
            · simp [restore_handlers, restore_sigaltstack, hemp]
            · simp [restore_handlers, restore_sigaltstack, GlobalState.installedB,
                hob0, hflags.1, hflags.2, hne, hnil]
        | false =>
            rw [do_detach_some_nonempty h st ind hfind hemp]
            have hnenil : st.handlerStack.eraseIdx ind ≠ [] := by
              intro hnil
              rw [hnil] at hemp
              simp at hemp
            refine ⟨⟨?_, ?_⟩, ?_⟩
            · simp [hemp, hflags.1]
            · simp [hemp, hflags.2]
            · simp [GlobalState.installedB, hob0, hflags.1, hflags.2, hnenil]
  · intro hse
    cases st with
    | mk stack alt handlers nid =>
        simp only at hse
        subst hse
        simp only [List.isEmpty_nil, Bool.not_true] at hinv1 hinv2
        subst hinv1
        subst hinv2
        cases f <;> exact ⟨rfl, rfl, rfl⟩

/-- Witness for C2: from the empty uninstalled state, a first attach flips
the installed state on; detaching the only handler flips it back off. -/
theorem installed_state_edges_witness :
    ((ExceptionHandler.attach (fun _ => true) initialState false).2.installedB
        ≠ initialState.installedB)
    ∧ ((ExceptionHandler.do_detach ⟨⟨0, fun _ => true⟩⟩
          ⟨[⟨⟨0, fun _ => true⟩, true⟩], true, true, 1⟩).installedB
        ≠ (⟨[⟨⟨0, fun _ => true⟩, true⟩], true, true, 1⟩ : GlobalState).installedB) := by
  constructor
  · have h := installed_state_edges initialState (fun _ => true) false
      ⟨⟨0, fun _ => true⟩⟩ ⟨rfl, rfl⟩
    have h1 := h.1 ⟨⟨0, fun _ => true⟩⟩
      ⟨[⟨⟨0, fun _ => true⟩, true⟩], true, true, 1⟩ rfl
    exact h1.2.mpr rfl
  · have h := installed_state_edges ⟨[⟨⟨0, fun _ => true⟩, true⟩], true, true, 1⟩
      (fun _ => true) false ⟨⟨0, fun _ => true⟩⟩ ⟨rfl, rfl⟩
    exact h.2.2.1.2.mpr ⟨by simp, rfl⟩

theorem install_sigaltstack_error_iff (st : GlobalState) (f : Bool) :
    (∃ e, install_sigaltstack st f = .error e) ↔
      (st.altStackInstalled = false ∧ f = true) := by
  unfold install_sigaltstack
  by_cases ha : st.altStackInstalled <;> by_cases hf : f <;> simp [ha, hf]
  exact ⟨.installation, trivial⟩

/-- C3: attach returns an installation Error exactly when the alternate
signal stack would have to be installed and its allocation fails (the only
fallible step visible at attach's call shape — OS handler installation has
no failure channel there); on error the whole global state, in particular
the registry list, is unchanged; on success exactly one live entry for the
supplied event is pushed and handed back. -/
theorem attach_all_or_nothing (st : GlobalState) (cb : CrashContext → Bool) (f : Bool) :
    ((∃ e st', ExceptionHandler.attach cb st f = (.error e, st')) ↔
        (st.altStackInstalled = false ∧ f = true))
    ∧ (∀ e st', ExceptionHandler.attach cb st f = (.error e, st') → st' = st)
    ∧ (∀ hh st', ExceptionHandler.attach cb st f = (.ok hh, st') →
        st'.handlerStack = st.handlerStack ++ [⟨⟨st.nextId, cb⟩, true⟩] ∧
          hh.inner = ⟨st.nextId, cb⟩) := by
  refine ⟨⟨?_, ?_⟩, ?_, ?_⟩
  · rintro ⟨e, st', ha⟩
    unfold ExceptionHandler.attach at ha
    cases hc : install_sigaltstack st f with
    | error e2 => exact (install_sigaltstack_error_iff st f).mp ⟨e2, hc⟩
    | ok st₁ => rw [hc] at ha; simp at ha
  · rintro ⟨ha, hf⟩
    have hc : install_sigaltstack st f = .error .installation := by
      simp [install_sigaltstack, ha, hf]
    refine ⟨.installation, st, ?_⟩
    unfold ExceptionHandler.attach
    rw [hc]
  · intro e st' ha
    exact attach_error_state cb st f e st' ha
  · intro hh st' ha
    have h := attach_ok_inv cb st f hh st' ha
    exact ⟨h.2.1, h.1⟩

/-- Witness for C3: from the uninstalled state, attach with a failing stack
allocation returns the state unchanged; with a succeeding one it pushes
exactly the new entry. -/
theorem attach_all_or_nothing_witness :
    (ExceptionHandler.attach (fun _ => true) initialState true).2 = initialState
    ∧ (ExceptionHandler.attach (fun _ => true) initialState false).2.handlerStack
        = [⟨⟨0, fun _ => true⟩, true⟩] := by
  constructor
  · exact (attach_all_or_nothing initialState (fun _ => true) true).2.1 .installation
      (ExceptionHandler.attach (fun _ => true) initialState true).2 rfl
  · exact ((attach_all_or_nothing initialState (fun _ => true) false).2.2
      ⟨⟨0, fun _ => true⟩⟩ ⟨[⟨⟨0, fun _ => true⟩, true⟩], true, true, 1⟩ rfl).1

/-- C6: detach removes a registry entry by identity of the underlying
allocation, not by value equality: after attaching two handlers (possibly
wrapping textually-identical closures) the two handles own distinct
allocations, and detaching either one removes exactly that handler's entry,
leaving the other attached (live in the registry, hence dispatchable). -/
theorem detach_by_identity (st : GlobalState) (cb₁ cb₂ : CrashContext → Bool)
    (f₁ f₂ : Bool) (h₁ h₂ : ExceptionHandler) (st₁ st₂ : GlobalState)
    (hlt : ∀ w ∈ st.handlerStack, w.inner.id < st.nextId)
    (ha₁ : ExceptionHandler.attach cb₁ st f₁ = (.ok h₁, st₁))
    (ha₂ : ExceptionHandler.attach cb₂ st₁ f₂ = (.ok h₂, st₂)) :
    h₁.inner.id ≠ h₂.inner.id
    ∧ (h₁.do_detach st₂).handlerStack = st.handlerStack ++ [⟨h₂.inner, true⟩]
    ∧ (h₂.do_detach st₂).handlerStack = st.handlerStack ++ [⟨h₁.inner, true⟩]
    ∧ ⟨h₂.inner, true⟩ ∈ (h₁.do_detach st₂).handlerStack
    ∧ ⟨h₁.inner, true⟩ ∈ (h₂.do_detach st₂).handlerStack := by
  obtain ⟨hin₁, hstk₁, hnid₁⟩ := attach_ok_inv cb₁ st f₁ h₁ st₁ ha₁
  obtain ⟨hin₂, hstk₂, hnid₂⟩ := attach_ok_inv cb₂ st₁ f₂ h₂ st₂ ha₂
  rw [hstk₁, hnid₁] at hstk₂
  rw [hnid₁] at hin₂
  have hid₁ : h₁.inner.id = st.nextId := by rw [hin₁]
  have hid₂ : h₂.inner.id = st.nextId + 1 := by rw [hin₂]
  have hp₁ : (fun w => ((WeakHandler.upgrade w).map fun handler =>
        handler.id == h₁.inner.id).getD false)
      = (fun w => w.alive && (w.inner.id == st.nextId)) := by
    funext w
    rw [detachPred_eq h₁ w, hid₁]
  have hp₂ : (fun w => ((WeakHandler.upgrade w).map fun handler =>
        handler.id == h₂.inner.id).getD false)
      = (fun w => w.alive && (w.inner.id == st.nextId + 1)) := by
    funext w
    rw [detachPred_eq h₂ w, hid₂]
  have hall₁ : ∀ x ∈ st.handlerStack,
      (x.alive && (x.inner.id == st.nextId)) = false := by
    intro x hx
    have hxlt := hlt x hx
    have hne : (x.inner.id == st.nextId) = false :=
      beq_eq_false_iff_ne.mpr (by omega)
    rw [hne, Bool.and_false]
  have hall₂ : ∀ x ∈ st.handlerStack ++ [(⟨⟨st.nextId, cb₁⟩, true⟩ : WeakHandler)],
      (x.alive && (x.inner.id == st.nextId + 1)) = false := by
    intro x hx
    rcases List.mem_append.mp hx with hx | hx
    · have hxlt := hlt x hx
      have hne : (x.inner.id == st.nextId + 1) = false :=
        beq_eq_false_iff_ne.mpr (by omega)
      rw [hne, Bool.and_false]
    · rw [List.mem_singleton] at hx
      subst hx
      have hne : ((st.nextId : Nat) == st.nextId + 1) = false :=
        beq_eq_false_iff_ne.mpr (by omega)
      simp [hne]
  have hfind₁ : List.findIdx?
      (fun w => ((WeakHandler.upgrade w).map fun handler =>
        handler.id == h₁.inner.id).getD false) st₂.handlerStack 0
      = some st.handlerStack.length := by
    rw [hp₁, hstk₂, List.append_assoc, findIdx?_append_false _ _ _ _ hall₁,
      List.singleton_append, findIdx?_cons_true _ _ _ _ (by simp)]
    simp
  have hfind₂ : List.findIdx?
      (fun w => ((WeakHandler.upgrade w).map fun handler =>
        handler.id == h₂.inner.id).getD false) st₂.handlerStack 0
      = some (st.handlerStack.length + 1) := by
    rw [hp₂, hstk₂, findIdx?_append_false _ _ _ _ hall₂,
      findIdx?_cons_true _ _ _ _ (by simp)]
    simp
  have herase₁ : st₂.handlerStack.eraseIdx st.handlerStack.length
      = st.handlerStack ++ [(⟨⟨st.nextId + 1, cb₂⟩, true⟩ : WeakHandler)] := by
    rw [hstk₂, List.append_assoc]
    rw [eraseIdx_append_len0 st.handlerStack
      ([(⟨⟨st.nextId, cb₁⟩, true⟩ : WeakHandler)] ++
        [(⟨⟨st.nextId + 1, cb₂⟩, true⟩ : WeakHandler)])]
    simp
  have herase₂ : st₂.handlerStack.eraseIdx (st.handlerStack.length + 1)
      = st.handlerStack ++ [(⟨⟨st.nextId, cb₁⟩, true⟩ : WeakHandler)] := by
    rw [hstk₂]
    have hlen : (st.handlerStack ++
        [(⟨⟨st.nextId, cb₁⟩, true⟩ : WeakHandler)]).length
        = st.handlerStack.length + 1 := by simp
    have he := eraseIdx_append_len0
      (st.handlerStack ++ [(⟨⟨st.nextId, cb₁⟩, true⟩ : WeakHandler)])
      [(⟨⟨st.nextId + 1, cb₂⟩, true⟩ : WeakHandler)]
    rw [hlen] at he
    rw [he]
    simp
  have hd₁ : (h₁.do_detach st₂).handlerStack
      = st.handlerStack ++ [(⟨⟨st.nextId + 1, cb₂⟩, true⟩ : WeakHandler)] := by
    rw [do_detach_some_nonempty h₁ st₂ _ hfind₁
      (by rw [herase₁]; exact isEmpty_append_singleton _ _)]
    exact herase₁
  have hd₂ : (h₂.do_detach st₂).handlerStack
      = st.handlerStack ++ [(⟨⟨st.nextId, cb₁⟩, true⟩ : WeakHandler)] := by
    rw [do_detach_some_nonempty h₂ st₂ _ hfind₂
      (by rw [herase₂]; exact isEmpty_append_singleton _ _)]
    exact herase₂
  refine ⟨by omega, ?_, ?_, ?_, ?_⟩
  · rw [hin₂]
    exact hd₁
  · rw [hin₁]
    exact hd₂
  · rw [hin₂, hd₁]
    simp
  · rw [hin₁, hd₂]
    simp

/-- Witness for C6: two handlers built from the same closure, attached to
the empty registry, get ids 0 and 1; detaching the first leaves exactly the
second's entry. -/
theorem detach_by_identity_witness :
    (ExceptionHandler.do_detach ⟨⟨0, fun _ => true⟩⟩
        ⟨[⟨⟨0, fun _ => true⟩, true⟩, ⟨⟨1, fun _ => true⟩, true⟩],
          true, true, 2⟩).handlerStack
      = [⟨⟨1, fun _ => true⟩, true⟩] := by
  have h := detach_by_identity initialState (fun _ => true) (fun _ => true)
    false false ⟨⟨0, fun _ => true⟩⟩ ⟨⟨1, fun _ => true⟩⟩
    ⟨[⟨⟨0, fun _ => true⟩, true⟩], true, true, 1⟩
    ⟨[⟨⟨0, fun _ => true⟩, true⟩, ⟨⟨1, fun _ => true⟩, true⟩], true, true, 2⟩
    (by intro w hw; simp [initialState] at hw) rfl rfl
  exact h.2.1

/-- A detach attempt that finds no matching registry entry is a no-op on the
entire global state. -/
theorem do_detach_no_match (h : ExceptionHandler) (st : GlobalState)
    (hnone : ∀ w ∈ st.handlerStack,
      (w.alive && (w.inner.id == h.inner.id)) = false) :
    h.do_detach st = st := by
  have hp : (fun w => ((WeakHandler.upgrade w).map fun handler =>
      handler.id == h.inner.id).getD false)
      = (fun w => w.alive && (w.inner.id == h.inner.id)) := funext (detachPred_eq h)
  exact do_detach_none h st (by rw [hp]; exact findIdx?_none _ _ _ hnone)

/-- C7: detach is idempotent and infallible: across the explicit detach call
and the ensuing drop the handle's entry is removed exactly once (the drop
glue's second do_detach finds nothing and changes nothing), and a detach
attempt that finds no matching entry leaves the registry list and the global
installed state entirely unchanged. -/
theorem detach_idempotent (st : GlobalState) (h : ExceptionHandler)
    (hids : (st.handlerStack.map fun w => w.inner.id).Nodup) :
    h.detachThenDrop st = h.do_detach st
    ∧ ((∀ w ∈ st.handlerStack,
          (w.alive && (w.inner.id == h.inner.id)) = false) →
        h.do_detach st = st) := by
  have hp : (fun w => ((WeakHandler.upgrade w).map fun handler =>
      handler.id == h.inner.id).getD false)
      = (fun w => w.alive && (w.inner.id == h.inner.id)) := funext (detachPred_eq h)
  constructor
  · show h.do_detach (h.do_detach st) = h.do_detach st
    cases horig : List.findIdx? (fun w => ((WeakHandler.upgrade w).map fun handler =>
        handler.id == h.inner.id).getD false) st.handlerStack 0 with
    | none =>
        rw [do_detach_none h st horig]
        exact do_detach_none h st horig
    | some ind =>
        have hfind := horig
        rw [hp] at hfind
        obtain ⟨l₁, x, l₂, hdec, hind, hpx, hall⟩ := findIdx?_some_decomp _ _ _ _ hfind
        have hxid : x.inner.id = h.inner.id := by
          have hx := hpx
          simp at hx
          exact hx.2
        have hzind : ind = l₁.length := by omega
        have herase : st.handlerStack.eraseIdx ind = l₁ ++ l₂ := by
          rw [hdec, hzind, eraseIdx_append_len0]
          simp
        have hstack1 : (h.do_detach st).handlerStack = l₁ ++ l₂ := by
          cases hemp : (st.handlerStack.eraseIdx ind).isEmpty with
          | true =>
              rw [do_detach_some_empty h st ind horig hemp]
              simp only [restore_handlers, restore_sigaltstack]
              exact herase
          | false =>
              rw [do_detach_some_nonempty h st ind horig hemp]
              exact herase
        have hnomatch : ∀ w ∈ l₁ ++ l₂,
            (w.alive && (w.inner.id == h.inner.id)) = false := by
          intro w hw
          rcases List.mem_append.mp hw with hw | hw
          · exact hall w hw
          · have hsub : List.Sublist ((x :: l₂).map fun w => w.inner.id)
                ((l₁ ++ x :: l₂).map fun w => w.inner.id) :=
              List.Sublist.map _ (List.sublist_append_right l₁ (x :: l₂))
            have hnd : ((x :: l₂).map fun w => w.inner.id).Nodup :=
              List.Nodup.sublist hsub (hdec ▸ hids)
            have hnotin : x.inner.id ∉ (l₂.map fun w => w.inner.id) :=
              (List.nodup_cons.mp hnd).1
            have hwid : w.inner.id ≠ h.inner.id := by
              intro he
              apply hnotin
              rw [hxid, ← he]
              exact List.mem_map_of_mem _ hw
            rw [beq_eq_false_iff_ne.mpr hwid, Bool.and_false]
        exact do_detach_no_match h (h.do_detach st)
          (by rw [hstack1]; exact hnomatch)
  · exact do_detach_no_match h st

/-- Witness for C7: on a one-entry registry, an explicit detach followed by
the drop glue's detach equals a single detach (removing the entry exactly
once), and a detach whose handle matches no entry changes nothing. -/
theorem detach_idempotent_witness :
    ExceptionHandler.detachThenDrop ⟨⟨0, fun _ => true⟩⟩
        ⟨[⟨⟨0, fun _ => true⟩, true⟩], true, true, 1⟩
      = ExceptionHandler.do_detach ⟨⟨0, fun _ => true⟩⟩
        ⟨[⟨⟨0, fun _ => true⟩, true⟩], true, true, 1⟩
    ∧ ExceptionHandler.do_detach ⟨⟨5, fun _ => true⟩⟩
        ⟨[⟨⟨0, fun _ => true⟩, true⟩], true, true, 1⟩
      = ⟨[⟨⟨0, fun _ => true⟩, true⟩], true, true, 1⟩ := by
  constructor
  · exact (detach_idempotent ⟨[⟨⟨0, fun _ => true⟩, true⟩], true, true, 1⟩
      ⟨⟨0, fun _ => true⟩⟩ (by simp)).1
  · exact (detach_idempotent ⟨[⟨⟨0, fun _ => true⟩, true⟩], true, true, 1⟩
      ⟨⟨5, fun _ => true⟩⟩ (by simp)).2
      (by intro w hw; rw [List.mem_singleton] at hw; subst hw; rfl)

end CrashHandling
